import Mathlib

/-!
Verification model of the Market Discovery & Price Resolution Engine of
`backend/services/agmarknet.py` (KisanMitra).

Conventions used throughout this development:
* Python floats are idealised as exact rationals (`ℚ`); `round(x, 2)` becomes
  `pyRound2`, round-half-to-even at two decimals over `ℚ`.
* Python dicts/JSON values (the persisted price cache and price rows) are the
  inductive `JVal`/`JFields`; field access and assignment mirror `dict.get` /
  `dict[k] = v` including Python truthiness where the source tests it.
* Network-dependent pieces are parameters of the model: the result of
  `_fetch_for_market` is an oracle `Mandi → Option JVal`, Python `hash` of a
  `(commodity, market)` tuple is an uninterpreted `String → String → Int`,
  and the great-circle distance `_haversine_km(origin, (lat, lon))` of a
  candidate is carried as an exact rational field `Mandi.distKm` (all three
  discovery tiers only emit candidates with coordinates and a distance, so the
  `lat is None` skip branches of the ranking loops are unreachable and omitted).
* String handling is over `List Char`; `.lower()` is ASCII `Char.toLower`
  (all names compared by the source heuristics are ASCII).
-/

namespace KisanMitra

/-- Python whitespace test used by `str.strip` / `str.split`. -/
def isWsChar (c : Char) : Bool := c.isWhitespace

/-- Python `str.strip()`: drop leading and trailing whitespace. -/
def trimChars (l : List Char) : List Char :=
  ((l.dropWhile isWsChar).reverse.dropWhile isWsChar).reverse

/-- Helper for Python `str.split()`: split on whitespace runs, dropping empties.
The accumulator holds the current word reversed. -/
def splitWsGo : List Char → List Char → List (List Char)
  | [], cur => if cur.isEmpty then [] else [cur.reverse]
  | c :: t, cur =>
    if isWsChar c then
      if cur.isEmpty then splitWsGo t [] else cur.reverse :: splitWsGo t []
    else splitWsGo t (c :: cur)

/-- `_normalize_market_name`: `" ".join(str(name or "").strip().lower().split())`. -/
def normalizeMarketName (s : String) : String :=
  String.mk (List.intercalate [' '] (splitWsGo ((trimChars s.data).map Char.toLower) []))

/-- Python `str(x).strip().lower()` for a string `x` (commodity keys). -/
def pyStripLower (s : String) : String :=
  String.mk ((trimChars s.data).map Char.toLower)

/-- Python's substring test `needle in hay` on strings. -/
def pyContains : List Char → List Char → Bool
  | hay, needle =>
    if needle.isPrefixOf hay then true
    else
      match hay with
      | [] => false
      | _ :: t => pyContains t needle

/-- Round-half-to-even to an integer, the tie behaviour of Python `round`. -/
def rhe (q : ℚ) : ℤ :=
  if q - ⌊q⌋ < 1/2 then ⌊q⌋
  else if 1/2 < q - ⌊q⌋ then ⌊q⌋ + 1
  else if ⌊q⌋ % 2 = 0 then ⌊q⌋ else ⌊q⌋ + 1

/-- Python `round(x, 2)` over the idealised rationals. -/
def pyRound2 (x : ℚ) : ℚ := (rhe (x * 100) : ℚ) / 100

mutual
/-- JSON-like values as stored in the persisted price cache
(`tmp_mandi_price_cache.json`) and as normalized price rows. -/
inductive JVal where
  | null : JVal
  | str : String → JVal
  | num : ℚ → JVal
  | obj : JFields → JVal
deriving DecidableEq
/-- Fields of a JSON object / Python dict, in insertion order. -/
inductive JFields where
  | nil : JFields
  | cons : String → JVal → JFields → JFields
deriving DecidableEq
end

/-- Whether a dict has no fields (Python truthiness of a dict). -/
def JFields.isEmpty : JFields → Bool
  | .nil => true
  | .cons _ _ _ => false

/-- Python truthiness of a JSON value. -/
def JVal.truthy : JVal → Bool
  | .null => false
  | .str s => s ≠ ""
  | .num q => q ≠ 0
  | .obj l => !l.isEmpty

/-- Dict field lookup `d.get(k)`: `None` when the key is absent. -/
def getFields (l : JFields) (k : String) : Option JVal :=
  match l with
  | .nil => none
  | .cons k1 v1 t => if k1 = k then some v1 else getFields t k

/-- Dict field assignment `d[k] = v`: replaces the value at an existing key in
place, otherwise appends (Python dicts keep insertion order). -/
def setFields (l : JFields) (k : String) (v : JVal) : JFields :=
  match l with
  | .nil => .cons k v .nil
  | .cons k1 v1 t => if k1 = k then .cons k v t else .cons k1 v1 (setFields t k v)

/-- `v.get(k)` on a value that may not be a dict: `None` when it is not. -/
def jGet (v : JVal) (k : String) : Option JVal :=
  match v with
  | .obj l => getFields l k
  | _ => none

/-- Python `x or y` on JSON values where `x` may be absent
(`d.get(k) or default`). -/
def pyOrJ (x : Option JVal) (y : JVal) : JVal :=
  match x with
  | some v => if v.truthy then v else y
  | none => y

/-- Python `str(...)` of the value in the legacy commodity comparison
(`str(legacy_entry.get('commodity') or '')`). Only its equality against a
stripped lower-case commodity key matters; the representations of numeric and
dict values (e.g. `"2000.0"`, `"{...}"`) are abstracted as fixed marker strings
that never collide with a commodity key in any cache this code writes (the
`commodity` field of every row this module persists is a string). -/
def pyStrOfJ : JVal → String
  | .str s => s
  | .num _ => "\x3cnum\x3e"
  | .null => "None"
  | .obj _ => "\x3cdict\x3e"

/-- `cache.get(today) or {}` (line 846 of `agmarknet.py`): the per-day slice of
the price cache; a falsy or missing day value degrades to an empty dict. The
whole cache is a dict (`_load_cache` always returns one), hence `JFields`. -/
def cacheGetDay (cache : JFields) (today : String) : JVal :=
  match getFields cache today with
  | some v => if v.truthy then v else JVal.obj .nil
  | none => JVal.obj .nil

/-- The legacy branch of the cached-price lookup (lines 852-859), applied to
`day_cache.get(norm)`: a legacy flat entry is honoured only when it is truthy
and its recorded `commodity` (as `str(... or '').strip().lower()`) equals the
requested commodity key; a truthy non-dict value raises inside the `try` and
is treated as absent. -/
def legacyHonor (ckey : String) (lv : Option JVal) : Option JVal :=
  match lv with
  | some L =>
    if L.truthy then
      match L with
      | JVal.obj fs =>
        if pyStripLower (pyStrOfJ (pyOrJ (getFields fs "commodity") (JVal.str ""))) = ckey
        then some L else none
      | _ => none
    else none
  | none => none

/-- The cached-price lookup of `find_nearest_mandis` (lines 845-859):
nested shape `cache[today][commodity_key][norm]` when `cache[today].get(ckey)`
is a dict, otherwise the legacy flat shape `cache[today][norm]` through
`legacyHonor`. -/
def cacheLookup (cache : JFields) (today ckey norm : String) : Option JVal :=
  match jGet (cacheGetDay cache today) ckey with
  | some (JVal.obj fs) => getFields fs norm
  | _ => legacyHonor ckey (jGet (cacheGetDay cache today) norm)

/-- `cache[today]` as a field list in the cache write: a non-dict (or absent)
day value is replaced by `{}` (line 1013-1014). -/
def dayFieldsOf (cache : JFields) (today : String) : JFields :=
  match getFields cache today with
  | some (JVal.obj l) => l
  | _ => .nil

/-- `cache[today][ckey]` as a field list in the cache write: a non-dict (or
absent) commodity value is replaced by `{}` (lines 1015-1016). -/
def commodityFieldsOf (dfs : JFields) (ckey : String) : JFields :=
  match getFields dfs ckey with
  | some (JVal.obj l) => l
  | _ => .nil

/-- The cache write of `find_nearest_mandis` (lines 1011-1017): ensure
`cache[today]` and `cache[today][ckey]` are dicts (replacing non-dict values
by `{}`), then assign `cache[today][ckey][norm] = e`. -/
def cachePut (cache : JFields) (today ckey norm : String) (e : JVal) : JFields :=
  let dfs : JFields := dayFieldsOf cache today
  let sfs : JFields := commodityFieldsOf dfs ckey
  setFields cache today (JVal.obj (setFields dfs ckey (JVal.obj (setFields sfs norm e))))

/-- `if today not in cache: cache[today] = {}` (lines 767-768). -/
def ensureDay (cache : JFields) (today : String) : JFields :=
  match getFields cache today with
  | some _ => cache
  | none => setFields cache today (JVal.obj .nil)

/-- Normalized recorded commodity of a legacy flat cache entry, the key the
legacy branch compares against the requested commodity; `none` when the value
is not a dict (in which case the legacy branch never honours it). -/
def recordedCommodityKey : JVal → Option String
  | .obj fs => some (pyStripLower (pyStrOfJ (pyOrJ (getFields fs "commodity") (JVal.str ""))))
  | _ => none

/-- `_post_prices_datagov_async` (lines 178-289) seen from its caller: any
transport-level failure (HTTP error status, parse failure, network exception)
is logged and swallowed into an empty row list, never an exception. -/
def postPricesDatagov {α : Type} (transport : Except Unit (List α)) : Except Unit (List α) :=
  match transport with
  | .ok rows => .ok rows
  | .error _ => .ok []

/-- `fetch_prices` (lines 79-175): when `USE_DATAGOV` is set, return the
data.gov result directly if that call does not raise, else fall back to the
local sample set and then to CEDA; without `USE_DATAGOV`, try CEDA, then the
local fallback, then raise. `localFallback` is the row list `_local_fallback`
would synthesize (deterministic for fixed cache files), `.error ()` models a
raised exception of a provider call. -/
def fetchPrices {α : Type} (useDatagov : Bool)
    (datagovOutcome : Except Unit (List α)) (cedaOutcome : Except Unit (List α))
    (localFallback : List α) : Except Unit (List α) :=
  let tailChain : Except Unit (List α) :=
    match cedaOutcome with
    | .ok rows => .ok rows
    | .error _ =>
      if !localFallback.isEmpty then .ok localFallback
      else if !localFallback.isEmpty then .ok localFallback
      else .error ()
  if useDatagov then
    match datagovOutcome with
    | .ok rows => .ok rows
    | .error _ =>
      if !localFallback.isEmpty then .ok localFallback
      else tailChain
  else tailChain

/-- A candidate market as produced by the three discovery tiers of
`find_nearest_mandis` (Geoapify / Overpass / local geocache): a raw `name`,
the exact great-circle distance `distKm` to the origin (the value
`_haversine_km(origin, (lat, lon))` recomputed by the ranking loops; the
`distance_km` dict key used for candidate sorting is its 2-decimal rounding),
and the provenance `source` tag (`some "geocache"` for the tertiary tier). -/
structure Mandi where
  name : String
  distKm : ℚ
  source : Option String
deriving DecidableEq

/-- `_is_valid_market_name` (lines 772-793): reject blacklisted substrings,
accept mandi/market-like substrings, else accept names of length at least 5. -/
def isValidMarketName (n : String) : Bool :=
  if n = "" then false
  else
    let s := (trimChars n.data).map Char.toLower
    let blacklistTokens : List String :=
      ["shop", "store", "grocery", "supermarket", "mother dairy", "safal", "pure veg",
       "restaurant", "hotel", "factory", "office", "company", "software", "solutions",
       "mall", "marketplace", "vegetable shop", "fruit stalls", "fruits", "d mart", "dmart"]
    let acceptTokens : List String :=
      ["mandi", "market", "mandai", "bazaar", "haat", "sabzi", "wholesale", "mandi."]
    if blacklistTokens.any (fun t => pyContains s t.data) then false
    else if acceptTokens.any (fun t => pyContains s t.data) then true
    else decide (5 ≤ s.length)

/-- The dedup-and-filter loop of `find_nearest_mandis` (lines 796-813): skip
empty or already-seen normalized names (adding every fresh name to `seen`
before validity is judged), keep valid names, keep geocache-sourced entries
even when the name fails validation, drop the rest. -/
def dedupFilterGo : List Mandi → List String → List Mandi
  | [], _ => []
  | m :: rest, seen =>
    let norm := normalizeMarketName m.name
    if norm = "" ∨ norm ∈ seen then dedupFilterGo rest seen
    else if isValidMarketName m.name then m :: dedupFilterGo rest (norm :: seen)
    else if m.source = some "geocache" then m :: dedupFilterGo rest (norm :: seen)
    else dedupFilterGo rest (norm :: seen)

/-- Entry point of the dedup-and-filter loop. -/
def dedupFilter (ms : List Mandi) : List Mandi := dedupFilterGo ms []

/-- `MAX_MARKETS_TO_QUERY` (line 823). -/
def MAX_MARKETS_TO_QUERY : ℕ := 6

/-- The `distance_km` dict key a discovery tier attached to a candidate:
`round(dist, 2)` of the exact distance. -/
def distanceKey (m : Mandi) : ℚ := pyRound2 m.distKm

/-- Candidate comparison used by `sorted(..., key=lambda x: x.get('distance_km', 999999))`. -/
def candLE (a b : Mandi) : Bool := decide (distanceKey a ≤ distanceKey b)

/-- Line 824: sort the filtered candidates by their `distance_km` key
(Python `sorted` is stable, as is `List.mergeSort`) and cap to 6. -/
def capCandidates (ms : List Mandi) : List Mandi :=
  (ms.mergeSort candLE).take MAX_MARKETS_TO_QUERY

/-- The dict comprehension `{ _normalize_market_name(m.get('name') or ''): m
for m in mandis }` of line 828: keys in first-insertion order, last value
per key winning. -/
def buildNormDict : List Mandi → List (String × Mandi) → List (String × Mandi)
  | [], acc => acc.reverse
  | m :: r, acc => buildNormDict r (dictInsertRev acc (normalizeMarketName m.name) m)
where
  /-- Insert into a reversed association list: update in place or prepend. -/
  dictInsertRev : List (String × Mandi) → String → Mandi → List (String × Mandi)
  | [], k, v => [(k, v)]
  | (k1, v1) :: t, k, v =>
    if k1 = k then (k, v) :: t else (k1, v1) :: dictInsertRev t k v

/-- Lines 826-828: the post-filter fallback. Note it rebuilds from the
already-capped (and, when this branch runs, necessarily empty) list `mandis`,
not from the original unfiltered candidates. -/
def afterFilterStage (discovered : List Mandi) : List Mandi :=
  let capped := capCandidates (dedupFilter discovered)
  if capped.isEmpty then
    ((buildNormDict capped []).map Prod.snd).mergeSort candLE |>.take MAX_MARKETS_TO_QUERY
  else capped

/-- The caller-supplied parameters of `find_nearest_mandis`, plus the day
stamp `today = datetime.utcnow().date().isoformat()` (a single calendar day is
assumed for the whole call). -/
structure RankParams where
  commodity : String
  radiusKm : ℚ
  fuelRate : ℚ
  mandiFees : ℚ
  topN : ℕ
  today : String

/-- `str(commodity or "").strip().lower()`, the commodity cache key. -/
def commodityKey (p : RankParams) : String := pyStripLower p.commodity

/-- A ranked result entry (lines 876-885 / 999-1008); `lat`/`lon` are carried
by `distance_km`, `state` is always `None` and omitted. -/
structure ResultEntry where
  city : String
  modal_price : ℚ
  distance_km : ℚ
  effective_price : ℚ
  raw : JVal
deriving DecidableEq

/-- `float(entry.get("modal_price") or entry.get("Modal Price") or
entry.get("modal", 0) or 0)` guarded by `try/except` (lines 862-864 and
985-987): numbers pass through, anything else (or a `float(...)` failure,
under which this model also files non-numeric strings) gives `0.0`. -/
def extractModal (c : JVal) : ℚ :=
  match c with
  | .obj fs =>
    (match pyOrJ (getFields fs "modal_price")
        (pyOrJ (getFields fs "Modal Price")
          (pyOrJ (some ((getFields fs "modal").getD (JVal.num 0))) (JVal.num 0))) with
     | .num q => q
     | _ => 0)
  | _ => 0

/-- The shared result-entry construction (lines 873-885 and 996-1008):
per-quintal costs are the per-ton parameters divided by 10, the effective
price is computed from the exact distance, and the reported `distance_km`
and `effective_price` are rounded to 2 decimals. -/
def mkResultEntry (name : String) (modal d f g : ℚ) (raw : JVal) : ResultEntry :=
  let perQuintalFuel := f / 10
  let perQuintalFees := g / 10
  let effective := modal - d * perQuintalFuel - perQuintalFees
  { city := name, modal_price := modal, distance_km := pyRound2 d,
    effective_price := pyRound2 effective, raw := raw }

/-- The cache-partition loop (lines 841-887): per candidate, look up
`cache[today][commodity][norm]`; a truthy hit becomes an immediate result
entry (skipped when beyond the radius), anything else goes to `to_query`. -/
def partitionCached (p : RankParams) (cache : JFields) : List Mandi → List ResultEntry × List Mandi
  | [] => ([], [])
  | m :: rest =>
    let r := partitionCached p cache rest
    match cacheLookup cache p.today (commodityKey p) (normalizeMarketName m.name) with
    | some c =>
      if c.truthy then
        if m.distKm > p.radiusKm then r
        else (mkResultEntry m.name (extractModal c) m.distKm p.fuelRate p.mandiFees c :: r.1, r.2)
      else (r.1, m :: r.2)
    | none => (r.1, m :: r.2)

/-- The result entry the cached partition contributes for one candidate:
`none` when the lookup misses (or is falsy, or the candidate is beyond the
radius). The entries of `partitionCached` are exactly these, in order. -/
def cachedEntryOf (p : RankParams) (cache : JFields) (m : Mandi) : Option ResultEntry :=
  match cacheLookup cache p.today (commodityKey p) (normalizeMarketName m.name) with
  | some c =>
    if c.truthy then
      if m.distKm > p.radiusKm then none
      else some (mkResultEntry m.name (extractModal c) m.distKm p.fuelRate p.mandiFees c)
    else none
  | none => none

/-- Whether one candidate goes to `to_query` (a cache miss or falsy hit). -/
def toQueryPick (p : RankParams) (cache : JFields) (m : Mandi) : Option Mandi :=
  match cacheLookup cache p.today (commodityKey p) (normalizeMarketName m.name) with
  | some c => if c.truthy then none else some m
  | none => some m

/-- The synthetic modal price of the placeholder record (lines 977-978):
`seed = abs(hash((commodity, norm))) % 1000; modal = 1800 + (seed % 1200)`. -/
def synthModal (pyHash : String → String → Int) (commodity norm : String) : ℕ :=
  1800 + ((pyHash commodity norm).natAbs % 1000) % 1200

/-- The deterministic synthetic placeholder record (lines 975-984). -/
def syntheticEntry (pyHash : String → String → Int) (commodity norm today : String) : JVal :=
  let modal : ℕ := synthModal pyHash commodity norm
  JVal.obj
    (.cons "modal_price" (JVal.num modal)
      (.cons "min_price" (JVal.num (max 1000 ((modal : ℚ) - 200)))
        (.cons "max_price" (JVal.num ((modal : ℚ) + 200))
          (.cons "date" (JVal.str today) .nil))))

/-- The `price_entry` used for a candidate after `if not price_entry:`
(lines 974-984): a falsy or absent fetch outcome is replaced by the synthetic
placeholder. `oracle m` is what the worker `_fetch_for_market` returned for
`m` (`none` for its failure/absent path). -/
def fetchPe (p : RankParams) (pyHash : String → String → Int)
    (oracle : Mandi → Option JVal) (m : Mandi) : JVal :=
  match oracle m with
  | some r =>
    if r.truthy then r
    else syntheticEntry pyHash p.commodity (normalizeMarketName m.name) p.today
  | none => syntheticEntry pyHash p.commodity (normalizeMarketName m.name) p.today

/-- The `as_completed` aggregation loop (lines 966-1019), processing the
uncached candidates in worker completion order: the candidate beyond the
radius is skipped entirely (`continue`), otherwise a result entry is appended
and the (possibly synthetic) price entry is written to the cache under
`date → commodity → market`. -/
def fetchLoop (p : RankParams) (pyHash : String → String → Int)
    (oracle : Mandi → Option JVal) : List Mandi → JFields → List ResultEntry × JFields
  | [], cache => ([], cache)
  | m :: rest, cache =>
    let pe := fetchPe p pyHash oracle m
    if m.distKm > p.radiusKm then fetchLoop p pyHash oracle rest cache
    else
      let r := fetchLoop p pyHash oracle rest
        (cachePut cache p.today (commodityKey p) (normalizeMarketName m.name) pe)
      (mkResultEntry m.name (extractModal pe) m.distKm p.fuelRate p.mandiFees pe :: r.1, r.2)

/-- The result entry an `as_completed` iteration contributes for a candidate:
`none` when the candidate is beyond the radius (the `continue` path), else the
constructed entry. The entries of `fetchLoop` are exactly these, in completion
order. -/
def fetchEntryOf (p : RankParams) (pyHash : String → String → Int)
    (oracle : Mandi → Option JVal) (m : Mandi) : Option ResultEntry :=
  let pe := fetchPe p pyHash oracle m
  if m.distKm > p.radiusKm then none
  else some (mkResultEntry m.name (extractModal pe) m.distKm p.fuelRate p.mandiFees pe)

/-- The final comparison `key=lambda x: (x.get("distance_km", 999999),
-float(x.get("effective_price", 0)))` (line 1028), as a total Boolean order. -/
def rankLE (a b : ResultEntry) : Bool :=
  decide (a.distance_km < b.distance_km ∨
    (a.distance_km = b.distance_km ∧ -a.effective_price ≤ -b.effective_price))

/-- Lines 1027-1029: stable-sort the results by the ranking key and truncate
to `top_n`. -/
def rankResults (results : List ResultEntry) (topN : ℕ) : List ResultEntry :=
  (results.mergeSort rankLE).take topN

/-- `find_nearest_mandis` from the point where discovery produced its raw
candidate list (line 795) to the returned ranking (line 1029), returning the
ranked list together with the final cache contents. `completionOrder` is the
order in which `concurrent.futures.as_completed` yields the uncached
candidates: a permutation of the `to_query` partition. -/
def findNearestMandis (p : RankParams) (pyHash : String → String → Int)
    (oracle : Mandi → Option JVal) (discovered : List Mandi) (cache0 : JFields)
    (completionOrder : List Mandi) : List ResultEntry × JFields :=
  let cache1 := ensureDay cache0 p.today
  let mandis := afterFilterStage discovered
  let (cachedEs, _toQuery) := partitionCached p cache1 mandis
  let (fetchEs, cache2) := fetchLoop p pyHash oracle completionOrder cache1
  (rankResults (cachedEs ++ fetchEs) p.topN, cache2)

/-- The uncached partition of a call, for stating which completion orders are
the real schedules of that call. -/
def toQueryOf (p : RankParams) (discovered : List Mandi) (cache0 : JFields) : List Mandi :=
  (partitionCached p (ensureDay cache0 p.today) (afterFilterStage discovered)).2

/-- A historical price row as consumed by `forecast_prices`: a modal price
and a parsed trade date (`none` models `pd.NaT` after `errors="coerce"`),
with dates idealised as day ordinals. -/
structure PriceRow where
  modal : ℚ
  date : Option ℤ
deriving DecidableEq

/-- `sort_values("date")`: ascending by date, missing dates last (stable). -/
def dateLE (a b : PriceRow) : Bool :=
  match a.date, b.date with
  | some x, some y => decide (x ≤ y)
  | some _, none => true
  | none, some _ => false
  | none, none => true

/-- `forecast_prices` (lines 1032-1067). `arima` stands for the external
ARIMA(1,1,1) fit-and-forecast of `statsmodels`; `none` models any exception
raised while fitting or forecasting (the `except` path), in which case the
code carries the last observed value forward. `nowD` is `datetime.utcnow()`
as a day ordinal. Output pairs are (forecast day, predicted modal price). -/
def forecastPrices (arima : List ℚ → Option (List ℚ)) (nowD : ℤ)
    (rows : List PriceRow) : List (ℤ × ℚ) :=
  match rows with
  | [] => []
  | _ :: _ =>
    let sortedRows := rows.mergeSort dateLE
    let series := sortedRows.map PriceRow.modal
    let horizon : ℕ := 14
    let vals : List ℚ :=
      match arima series with
      | some v => v
      | none => List.replicate horizon ((series.getLast?).getD 0)
    let start : ℤ :=
      match sortedRows.getLast? with
      | some r => match r.date with | some d => d | none => nowD
      | none => nowD
    (List.range horizon).map (fun i => (start + Int.ofNat i + 1, vals.getD i (0 : ℚ)))

/-! ### Helper lemmas about dict field access -/

theorem getFields_setFields_self : ∀ (l : JFields) (k : String) (v : JVal),
    getFields (setFields l k v) k = some v
  | .nil, k, v => by simp [setFields, getFields]
  | .cons k1 v1 t, k, v => by
    by_cases h : k1 = k
    · simp [setFields, h, getFields]
    · simp [setFields, h, getFields, getFields_setFields_self t k v]

theorem getFields_setFields_ne : ∀ (l : JFields) (k1 k2 : String) (v : JVal), k1 ≠ k2 →
    getFields (setFields l k1 v) k2 = getFields l k2
  | .nil, k1, k2, v, h => by simp [setFields, getFields, h]
  | .cons ka va t, k1, k2, v, h => by
    by_cases hk : ka = k1
    · subst hk
      simp [setFields, getFields, h]
    · simp [setFields, hk, getFields, getFields_setFields_ne t k1 k2 v h]

theorem setFields_isEmpty_false (l : JFields) (k : String) (v : JVal) :
    (setFields l k v).isEmpty = false := by
  cases l with
  | nil => simp [setFields, JFields.isEmpty]
  | cons k1 v1 t =>
    by_cases h : k1 = k <;> simp [setFields, h, JFields.isEmpty]

theorem sizeOf_lt_setFields : ∀ (l : JFields) (k : String) (e : JVal),
    sizeOf e < sizeOf (setFields l k e)
  | .nil, k, e => by simp [setFields]; omega
  | .cons k1 v1 t, k, e => by
    by_cases h : k1 = k
    · simp [setFields, h]; omega
    · have := sizeOf_lt_setFields t k e
      simp [setFields, h]
      omega

theorem obj_setFields_ne (l : JFields) (k : String) (e : JVal) :
    JVal.obj (setFields l k e) ≠ e := by
  intro h
  have h1 : sizeOf e < sizeOf (setFields l k e) := sizeOf_lt_setFields l k e
  have h2 : sizeOf (JVal.obj (setFields l k e)) = 1 + sizeOf (setFields l k e) := by
    simp
  rw [h] at h2
  omega

theorem getFields_dayFieldsOf (cache : JFields) (D k : String) :
    getFields (dayFieldsOf cache D) k = jGet (cacheGetDay cache D) k := by
  unfold dayFieldsOf cacheGetDay
  cases h : getFields cache D with
  | none => simp [jGet, getFields]
  | some v =>
    cases v with
    | obj l =>
      cases l with
      | nil => simp [JVal.truthy, JFields.isEmpty, jGet, getFields]
      | cons a b t => simp [JVal.truthy, JFields.isEmpty, jGet]
    | null => simp [JVal.truthy, jGet, getFields]
    | str s =>
      by_cases hs : s = "" <;> simp [JVal.truthy, hs, jGet, getFields]
    | num q =>
      by_cases hq : q = 0 <;> simp [JVal.truthy, hq, jGet, getFields]

/-! ### Helper lemmas about 2-decimal rounding -/

theorem rhe_le_intCast {q : ℚ} {z : ℤ} (h : q ≤ (z : ℚ)) : rhe q ≤ z := by
  unfold rhe
  have hf : ⌊q⌋ ≤ z := by
    have := Int.floor_le_floor h
    simpa using this
  split_ifs with h1 h2 h3
  · exact hf
  · -- q - ⌊q⌋ > 1/2, so ⌊q⌋ < z
    have hq : (⌊q⌋ : ℚ) + 1/2 < q := by linarith
    have : ⌊q⌋ < z := by
      by_contra hc
      have he : ⌊q⌋ = z := le_antisymm hf (not_lt.mp hc)
      rw [he] at hq
      linarith
    omega
  · exact hf
  · have hq : (⌊q⌋ : ℚ) + 1/2 ≤ q := by linarith [not_lt.mp h1]
    have : ⌊q⌋ < z := by
      by_contra hc
      have he : ⌊q⌋ = z := le_antisymm hf (not_lt.mp hc)
      rw [he] at hq
      have : (z : ℚ) + 1/2 ≤ (z : ℚ) := le_trans hq h
      linarith
    omega

theorem pyRound2_le_intCast {d : ℚ} {k : ℤ} (h : d ≤ (k : ℚ)) : pyRound2 d ≤ (k : ℚ) := by
  unfold pyRound2
  have h100 : d * 100 ≤ ((100 * k : ℤ) : ℚ) := by push_cast; linarith
  have hr : rhe (d * 100) ≤ 100 * k := rhe_le_intCast h100
  have hrq : (rhe (d * 100) : ℚ) ≤ ((100 * k : ℤ) : ℚ) := by exact_mod_cast hr
  rw [div_le_iff₀ (by norm_num : (0:ℚ) < 100)]
  push_cast at hrq ⊢
  linarith

/-! ### Helper lemmas about the ranking order -/

theorem rankLE_iff (a b : ResultEntry) :
    rankLE a b = true ↔
      (a.distance_km < b.distance_km ∨
        (a.distance_km = b.distance_km ∧ b.effective_price ≤ a.effective_price)) := by
  unfold rankLE
  rw [decide_eq_true_iff]
  constructor
  · rintro (h | ⟨h1, h2⟩)
    · exact Or.inl h
    · exact Or.inr ⟨h1, by linarith⟩
  · rintro (h | ⟨h1, h2⟩)
    · exact Or.inl h
    · exact Or.inr ⟨h1, by linarith⟩

theorem rankLE_total (a b : ResultEntry) : rankLE a b || rankLE b a := by
  rcases lt_trichotomy a.distance_km b.distance_km with h | h | h
  · have : rankLE a b = true := (rankLE_iff a b).mpr (Or.inl h)
    simp [this]
  · rcases le_total b.effective_price a.effective_price with he | he
    · have : rankLE a b = true := (rankLE_iff a b).mpr (Or.inr ⟨h, he⟩)
      simp [this]
    · have : rankLE b a = true := (rankLE_iff b a).mpr (Or.inr ⟨h.symm, he⟩)
      simp [this]
  · have : rankLE b a = true := (rankLE_iff b a).mpr (Or.inl h)
    simp [this]

theorem rankLE_trans (a b c : ResultEntry) (h1 : rankLE a b) (h2 : rankLE b c) : rankLE a c := by
  rw [rankLE_iff] at h1 h2 ⊢
  rcases h1 with h1 | ⟨h1d, h1e⟩ <;> rcases h2 with h2 | ⟨h2d, h2e⟩
  · exact Or.inl (lt_trans h1 h2)
  · exact Or.inl (h2d ▸ h1)
  · exact Or.inl (h1d ▸ h2)
  · exact Or.inr ⟨h1d.trans h2d, le_trans h2e h1e⟩

theorem rankLE_antisymm_keys (a b : ResultEntry) (h1 : rankLE a b) (h2 : rankLE b a) :
    a.distance_km = b.distance_km ∧ a.effective_price = b.effective_price := by
  rw [rankLE_iff] at h1 h2
  rcases h1 with h1 | ⟨h1d, h1e⟩ <;> rcases h2 with h2 | ⟨h2d, h2e⟩
  · exact absurd h2 (lt_asymm h1)
  · exact absurd h1 (h2d ▸ lt_irrefl _)
  · exact absurd h2 (h1d ▸ lt_irrefl _)
  · exact ⟨h1d, le_antisymm h2e h1e⟩

/-- Two sorted permutations of each other agree once no two elements are
mutually `le`-equivalent in the first. -/
theorem sorted_perm_eq {α : Type} (le : α → α → Bool) :
    ∀ (l1 l2 : List α), l1.Perm l2 →
      l1.Pairwise (fun a b => le a b) → l2.Pairwise (fun a b => le a b) →
      l1.Pairwise (fun a b => ¬(le a b ∧ le b a)) →
      l1 = l2
  | [], l2, hp, _, _, _ => (hp.nil_eq).symm ▸ rfl
  | a :: t1, l2, hp, hs1, hs2, hn1 => by
    cases l2 with
    | nil => exact absurd hp.symm (by simp)
    | cons b t2 =>
      by_cases hab : a = b
      · subst hab
        have ht : t1.Perm t2 := hp.cons_inv
        have := sorted_perm_eq le t1 t2 ht hs1.tail hs2.tail hn1.tail
        rw [this]
      · exfalso
        have hbl1 : b ∈ a :: t1 := hp.mem_iff.mpr (List.mem_cons_self b t2)
        have hbt1 : b ∈ t1 := by
          rcases List.mem_cons.mp hbl1 with h | h
          · exact absurd h.symm hab
          · exact h
        have hal2 : a ∈ b :: t2 := hp.mem_iff.mp (List.mem_cons_self a t1)
        have hat2 : a ∈ t2 := by
          rcases List.mem_cons.mp hal2 with h | h
          · exact absurd h hab
          · exact h
        have hle1 : le a b := List.rel_of_pairwise_cons hs1 hbt1
        have hle2 : le b a := List.rel_of_pairwise_cons hs2 hat2
        exact List.rel_of_pairwise_cons hn1 hbt1 ⟨hle1, hle2⟩

/-! ### C2: price cache commodity isolation -/

theorem cacheLookup_eq_nested {cache : JFields} {D c : String} (X : String) {fs : JFields}
    (h : jGet (cacheGetDay cache D) c = some (JVal.obj fs)) :
    cacheLookup cache D c X = getFields fs X := by
  unfold cacheLookup
  rw [h]

theorem cacheLookup_eq_legacy {cache : JFields} {D c : String} (X : String)
    (h : ∀ fs, jGet (cacheGetDay cache D) c ≠ some (JVal.obj fs)) :
    cacheLookup cache D c X = legacyHonor c (jGet (cacheGetDay cache D) X) := by
  unfold cacheLookup
  cases h0 : jGet (cacheGetDay cache D) c with
  | none => rfl
  | some v =>
    cases v with
    | obj fs => exact absurd h0 (h fs)
    | null => rfl
    | str s => rfl
    | num q => rfl

theorem legacyHonor_setFields_ne (c : String) (sfs : JFields) (X : String) (e : JVal) :
    legacyHonor c (some (JVal.obj (setFields sfs X e))) ≠ some e := by
  unfold legacyHonor
  simp only [JVal.truthy, setFields_isEmpty_false, Bool.not_false, if_true]
  split_ifs
  · intro hcontra
    exact obj_setFields_ne _ _ _ (Option.some.inj hcontra)
  · simp

theorem legacyHonor_mismatch (c : String) (L : JVal)
    (hmis : recordedCommodityKey L ≠ some c) :
    legacyHonor c (some L) = none := by
  cases L with
  | obj fs =>
    simp only [recordedCommodityKey, ne_eq, Option.some.injEq] at hmis
    simp only [legacyHonor, JVal.truthy]
    by_cases hemp : fs.isEmpty
    · simp [hemp]
    · simp [hemp, hmis]
  | null => simp [legacyHonor, JVal.truthy]
  | str s =>
    by_cases hs : s = "" <;> simp [legacyHonor, JVal.truthy, hs]
  | num q =>
    by_cases hq : q = 0 <;> simp [legacyHonor, JVal.truthy, hq]

/-- A value written by `cachePut` under commodity key `c1` is never returned
by a lookup under a different commodity key `c2`, unless an identical value
was already visible there before the write. -/
theorem cacheLookup_cachePut_ne (cache : JFields) (D c1 c2 X : String) (e : JVal)
    (h12 : c1 ≠ c2) (hold : cacheLookup cache D c2 X ≠ some e) :
    cacheLookup (cachePut cache D c1 X e) D c2 X ≠ some e := by
  have hday : cacheGetDay (cachePut cache D c1 X e) D =
      JVal.obj (setFields (dayFieldsOf cache D) c1
        (JVal.obj (setFields (commodityFieldsOf (dayFieldsOf cache D) c1) X e))) := by
    unfold cachePut cacheGetDay
    rw [getFields_setFields_self]
    simp [JVal.truthy, setFields_isEmpty_false]
  have hc2 : jGet (cacheGetDay (cachePut cache D c1 X e) D) c2 =
      jGet (cacheGetDay cache D) c2 := by
    rw [hday]
    show getFields (setFields (dayFieldsOf cache D) c1 _) c2 = _
    rw [getFields_setFields_ne _ _ _ _ h12, getFields_dayFieldsOf]
  cases h0 : jGet (cacheGetDay cache D) c2 with
  | some v =>
    cases v with
    | obj fs =>
      rw [cacheLookup_eq_nested X (hc2.trans h0)]
      rw [cacheLookup_eq_nested X h0] at hold
      exact hold
    | null =>
      rw [cacheLookup_eq_legacy X (fun fs hf => by rw [hc2, h0] at hf; exact JVal.noConfusion (Option.some.inj hf))]
      rw [cacheLookup_eq_legacy X (fun fs hf => by rw [h0] at hf; exact JVal.noConfusion (Option.some.inj hf))] at hold
      by_cases hX : X = c1
      · subst hX
        rw [hday]
        show legacyHonor c2 (getFields (setFields (dayFieldsOf cache D) X _) X) ≠ some e
        rw [getFields_setFields_self]
        exact legacyHonor_setFields_ne c2 _ X e
      · rw [hday]
        show legacyHonor c2 (getFields (setFields (dayFieldsOf cache D) c1 _) X) ≠ some e
        rw [getFields_setFields_ne _ _ _ _ (fun hc => hX hc.symm), getFields_dayFieldsOf]
        exact hold
    | str s =>
      rw [cacheLookup_eq_legacy X (fun fs hf => by rw [hc2, h0] at hf; exact JVal.noConfusion (Option.some.inj hf))]
      rw [cacheLookup_eq_legacy X (fun fs hf => by rw [h0] at hf; exact JVal.noConfusion (Option.some.inj hf))] at hold
      by_cases hX : X = c1
      · subst hX
        rw [hday]
        show legacyHonor c2 (getFields (setFields (dayFieldsOf cache D) X _) X) ≠ some e
        rw [getFields_setFields_self]
        exact legacyHonor_setFields_ne c2 _ X e
      · rw [hday]
        show legacyHonor c2 (getFields (setFields (dayFieldsOf cache D) c1 _) X) ≠ some e
        rw [getFields_setFields_ne _ _ _ _ (fun hc => hX hc.symm), getFields_dayFieldsOf]
        exact hold
    | num q =>
      rw [cacheLookup_eq_legacy X (fun fs hf => by rw [hc2, h0] at hf; exact JVal.noConfusion (Option.some.inj hf))]
      rw [cacheLookup_eq_legacy X (fun fs hf => by rw [h0] at hf; exact JVal.noConfusion (Option.some.inj hf))] at hold
      by_cases hX : X = c1
      · subst hX
        rw [hday]
        show legacyHonor c2 (getFields (setFields (dayFieldsOf cache D) X _) X) ≠ some e
        rw [getFields_setFields_self]
        exact legacyHonor_setFields_ne c2 _ X e
      · rw [hday]
        show legacyHonor c2 (getFields (setFields (dayFieldsOf cache D) c1 _) X) ≠ some e
        rw [getFields_setFields_ne _ _ _ _ (fun hc => hX hc.symm), getFields_dayFieldsOf]
        exact hold
  | none =>
    rw [cacheLookup_eq_legacy X (fun fs hf => by rw [hc2, h0] at hf; exact Option.noConfusion hf)]
    rw [cacheLookup_eq_legacy X (fun fs hf => by rw [h0] at hf; exact Option.noConfusion hf)] at hold
    by_cases hX : X = c1
    · subst hX
      rw [hday]
      show legacyHonor c2 (getFields (setFields (dayFieldsOf cache D) X _) X) ≠ some e
      rw [getFields_setFields_self]
      exact legacyHonor_setFields_ne c2 _ X e
    · rw [hday]
      show legacyHonor c2 (getFields (setFields (dayFieldsOf cache D) c1 _) X) ≠ some e
      rw [getFields_setFields_ne _ _ _ _ (fun hc => hX hc.symm), getFields_dayFieldsOf]
      exact hold

/-- A legacy flat entry whose recorded commodity does not match the requested
key is treated as absent (when the nested branch is not taken). -/
theorem legacy_mismatch_absent (cache : JFields) (D c X : String) (L : JVal)
    (hnested : ∀ fs, jGet (cacheGetDay cache D) c ≠ some (JVal.obj fs))
    (hX : jGet (cacheGetDay cache D) X = some L)
    (hmis : recordedCommodityKey L ≠ some c) :
    cacheLookup cache D c X = none := by
  rw [cacheLookup_eq_legacy X hnested, hX]
  exact legacyHonor_mismatch c L hmis

/-- C2: price cache commodity isolation. For every date `D`, market key `X`
and distinct commodities `c1 ≠ c2`, a price record written to the cache under
`(D, c1, X)` is never returned by a subsequent lookup of `(D, c2, X)` (stated
relative to the value not already being visible under `(D, c2, X)`, since
records are compared by value); and a legacy flat-shaped entry is honoured
only when its recorded commodity equals the requested commodity, otherwise
the lookup treats it as absent. -/
theorem c2_cache_commodity_isolation :
    (∀ (cache : JFields) (D c1 c2 X : String) (e : JVal), c1 ≠ c2 →
      cacheLookup cache D c2 X ≠ some e →
      cacheLookup (cachePut cache D c1 X e) D c2 X ≠ some e) ∧
    (∀ (cache : JFields) (D c X : String) (L : JVal),
      (∀ fs, jGet (cacheGetDay cache D) c ≠ some (JVal.obj fs)) →
      jGet (cacheGetDay cache D) X = some L →
      recordedCommodityKey L ≠ some c →
      cacheLookup cache D c X = none) :=
  ⟨cacheLookup_cachePut_ne, legacy_mismatch_absent⟩

/-- A legacy flat-shaped day cache holding a wheat record under market `x`. -/
def legacyWheatCache : JFields :=
  .cons "2026-10-12"
    (JVal.obj (.cons "x"
      (JVal.obj (.cons "commodity" (JVal.str "Wheat")
        (.cons "modal_price" (JVal.num 2100) .nil))) .nil)) .nil

/-- A price record for wheat at market `x`. -/
def wheatRecord : JVal :=
  JVal.obj (.cons "commodity" (JVal.str "Wheat")
    (.cons "modal_price" (JVal.num 2100) .nil))

/-- Witness for C2: writing wheat under `(2026-10-12, "wheat", "x")` into a
legacy-shaped cache is not readable under commodity `"rice"`, and the legacy
wheat entry itself is treated as absent when rice is requested. -/
theorem c2_cache_commodity_isolation_witness :
    cacheLookup (cachePut legacyWheatCache "2026-10-12" "wheat" "x" wheatRecord)
      "2026-10-12" "rice" "x" ≠ some wheatRecord ∧
    cacheLookup legacyWheatCache "2026-10-12" "rice" "x" = none := by
  constructor
  · exact c2_cache_commodity_isolation.1 legacyWheatCache "2026-10-12" "wheat" "rice" "x"
      wheatRecord (by decide) (by decide)
  · have hnone : jGet (cacheGetDay legacyWheatCache "2026-10-12") "rice" = none := by decide
    exact c2_cache_commodity_isolation.2 legacyWheatCache "2026-10-12" "rice" "x"
      (JVal.obj (.cons "commodity" (JVal.str "Wheat")
        (.cons "modal_price" (JVal.num 2100) .nil)))
      (fun fs h => Option.noConfusion (hnone ▸ h)) (by decide) (by decide)

/-! ### C5: fetch_prices fallback chain -/

/-- C5 (code_bug evidence): with the data.gov provider configured
(`USE_DATAGOV`), a transport-level outage of data.gov is swallowed by
`_post_prices_datagov_async` into an empty row list, which `fetch_prices`
returns directly — the caller receives an empty result solely because of the
outage, and neither the CEDA fallback nor the non-empty local sample fallback
is consulted, contradicting the spec and the code's own final-fallback
comment. -/
theorem c5_outage_returns_empty {α : Type} (cedaOutcome : Except Unit (List α))
    (localFallback : List α) :
    fetchPrices true (postPricesDatagov (Except.error ())) cedaOutcome localFallback =
      Except.ok [] := by
  rfl

/-! ### Structure of the ranking pipeline -/

theorem partitionCached_fst (p : RankParams) (cache : JFields) : ∀ (ms : List Mandi),
    (partitionCached p cache ms).1 = ms.filterMap (cachedEntryOf p cache)
  | [] => rfl
  | m :: rest => by
    have ih := partitionCached_fst p cache rest
    simp only [partitionCached, cachedEntryOf, List.filterMap_cons]
    cases h : cacheLookup cache p.today (commodityKey p) (normalizeMarketName m.name) with
    | none => simpa using ih
    | some c =>
      by_cases ht : c.truthy
      · by_cases hd : m.distKm > p.radiusKm
        · simp [ht, hd, ih]
        · simp [ht, hd, ih]
      · simp [ht, ih]

theorem partitionCached_snd (p : RankParams) (cache : JFields) : ∀ (ms : List Mandi),
    (partitionCached p cache ms).2 = ms.filterMap (toQueryPick p cache)
  | [] => rfl
  | m :: rest => by
    have ih := partitionCached_snd p cache rest
    simp only [partitionCached, toQueryPick, List.filterMap_cons]
    cases h : cacheLookup cache p.today (commodityKey p) (normalizeMarketName m.name) with
    | none => simpa using ih
    | some c =>
      by_cases ht : c.truthy
      · by_cases hd : m.distKm > p.radiusKm
        · simp [ht, hd, ih]
        · simp [ht, hd, ih]
      · simp [ht, ih]

theorem fetchLoop_fst (p : RankParams) (pyHash : String → String → Int)
    (oracle : Mandi → Option JVal) : ∀ (ord : List Mandi) (cache : JFields),
    (fetchLoop p pyHash oracle ord cache).1 = ord.filterMap (fetchEntryOf p pyHash oracle)
  | [], _ => rfl
  | m :: rest, cache => by
    simp only [fetchLoop, fetchEntryOf, List.filterMap_cons]
    by_cases hd : m.distKm > p.radiusKm
    · simp [hd, fetchLoop_fst p pyHash oracle rest cache]
    · simp [hd, fetchLoop_fst p pyHash oracle rest _]

theorem cachedEntryOf_shape {p : RankParams} {cache : JFields} {m : Mandi} {e : ResultEntry}
    (h : cachedEntryOf p cache m = some e) :
    ∃ c, e = mkResultEntry m.name (extractModal c) m.distKm p.fuelRate p.mandiFees c ∧
      ¬ m.distKm > p.radiusKm := by
  unfold cachedEntryOf at h
  cases h0 : cacheLookup cache p.today (commodityKey p) (normalizeMarketName m.name) with
  | none => rw [h0] at h; exact Option.noConfusion h
  | some c =>
    rw [h0] at h
    by_cases ht : c.truthy
    · by_cases hd : m.distKm > p.radiusKm
      · simp [ht, hd] at h
      · simp only [ht, hd, if_true, if_false] at h
        exact ⟨c, (Option.some.inj h).symm, hd⟩
    · simp [ht] at h

theorem fetchEntryOf_shape {p : RankParams} {pyHash : String → String → Int}
    {oracle : Mandi → Option JVal} {m : Mandi} {e : ResultEntry}
    (h : fetchEntryOf p pyHash oracle m = some e) :
    e = mkResultEntry m.name (extractModal (fetchPe p pyHash oracle m)) m.distKm
        p.fuelRate p.mandiFees (fetchPe p pyHash oracle m) ∧
      ¬ m.distKm > p.radiusKm := by
  unfold fetchEntryOf at h
  by_cases hd : m.distKm > p.radiusKm
  · simp [hd] at h
  · simp only [hd, if_false] at h
    exact ⟨(Option.some.inj h).symm, hd⟩

theorem mem_findNearestMandis {p : RankParams} {pyHash : String → String → Int}
    {oracle : Mandi → Option JVal} {disc : List Mandi} {c0 : JFields}
    {ord : List Mandi} {e : ResultEntry}
    (h : e ∈ (findNearestMandis p pyHash oracle disc c0 ord).1) :
    (∃ m, cachedEntryOf p (ensureDay c0 p.today) m = some e) ∨
    (∃ m, fetchEntryOf p pyHash oracle m = some e) := by
  simp only [findNearestMandis, rankResults] at h
  have h1 := List.mem_mergeSort.mp (List.mem_of_mem_take h)
  rw [partitionCached_fst, fetchLoop_fst] at h1
  rcases List.mem_append.mp h1 with h2 | h2
  · rcases List.mem_filterMap.mp h2 with ⟨m, _, hm⟩
    exact Or.inl ⟨m, hm⟩
  · rcases List.mem_filterMap.mp h2 with ⟨m, _, hm⟩
    exact Or.inr ⟨m, hm⟩

/-! ### C3: result ordering and truncation -/

/-- C3: for every input (any parameters, any discovered candidates, any cache
state, any worker completion order), the list `find_nearest_mandis` returns is
sorted ascending by `distance_km` with ties broken by `effective_price`
descending, and contains at most `top_n` entries. -/
theorem c3_sorted_truncated (p : RankParams) (pyHash : String → String → Int)
    (oracle : Mandi → Option JVal) (disc : List Mandi) (c0 : JFields) (ord : List Mandi) :
    List.Pairwise (fun a b : ResultEntry => a.distance_km < b.distance_km ∨
        (a.distance_km = b.distance_km ∧ b.effective_price ≤ a.effective_price))
      (findNearestMandis p pyHash oracle disc c0 ord).1 ∧
    (findNearestMandis p pyHash oracle disc c0 ord).1.length ≤ p.topN := by
  constructor
  · simp only [findNearestMandis, rankResults]
    have hs := List.sorted_mergeSort rankLE_trans
      (fun a b => rankLE_total a b)
      ((partitionCached p (ensureDay c0 p.today) (afterFilterStage disc)).1 ++
        (fetchLoop p pyHash oracle ord (ensureDay c0 p.today)).1)
    exact ((hs.sublist (List.take_sublist _ _)).imp (fun hab => (rankLE_iff _ _).mp hab))
  · simp only [findNearestMandis, rankResults]
    exact List.length_take_le _ _

/-! ### C4: radius bound -/

/-- C4: with the integer radius of the `find_nearest_mandis` signature, every
returned entry reports `distance_km ≤ radius_km` (entries are only built from
candidates whose exact distance passes the `distance > radius_km` filter, and
2-decimal rounding cannot cross an integer bound). -/
theorem c4_radius_bound (p : RankParams) (pyHash : String → String → Int)
    (oracle : Mandi → Option JVal) (disc : List Mandi) (c0 : JFields) (ord : List Mandi)
    (k : ℤ) (hrad : p.radiusKm = (k : ℚ)) :
    ∀ e ∈ (findNearestMandis p pyHash oracle disc c0 ord).1, e.distance_km ≤ (k : ℚ) := by
  intro e he
  have hd : ∃ d : ℚ, e.distance_km = pyRound2 d ∧ ¬ d > p.radiusKm := by
    rcases mem_findNearestMandis he with ⟨m, hm⟩ | ⟨m, hm⟩
    · rcases cachedEntryOf_shape hm with ⟨c, he1, he2⟩
      exact ⟨m.distKm, by rw [he1]; rfl, he2⟩
    · rcases fetchEntryOf_shape hm with ⟨he1, he2⟩
      exact ⟨m.distKm, by rw [he1]; rfl, he2⟩
  rcases hd with ⟨d, hd1, hd2⟩
  rw [hd1]
  exact pyRound2_le_intCast (le_of_not_lt (hrad ▸ hd2))

/-! ### Concrete fixtures used by witnesses and counterexamples -/

/-- A fixed stand-in for Python `hash((commodity, norm))`. -/
def wHash : String → String → Int := fun _ _ => 0

/-- A price-lookup oracle in which every tier failed (total Absent). -/
def wOracleNone : Mandi → Option JVal := fun _ => none

/-- A candidate market 10 km away. -/
def wMandi : Mandi := ⟨"a mandi", 10, none⟩

/-- Parameters: commodity `"c"`, radius 50 km, no costs, top 5, day `"d"`. -/
def wParams : RankParams := ⟨"c", 50, 0, 0, 5, "d"⟩

/-- The synthetic placeholder the coordinator builds for `wMandi`. -/
def wSynthetic : JVal := syntheticEntry wHash "c" "a mandi" "d"

/-- The single entry of the `wParams` run. -/
def wEntry : ResultEntry := mkResultEntry "a mandi" 1800 10 0 0 wSynthetic

theorem findNearest_wRun :
    (findNearestMandis wParams wHash wOracleNone [wMandi] .nil [wMandi]).1 = [wEntry] := by
  have hN : normalizeMarketName "a mandi" = "a mandi" := by decide
  have hV : isValidMarketName "a mandi" = true := by decide
  have hC : ∀ (r f g : ℚ) (n : ℕ), commodityKey ⟨"c", r, f, g, n, "d"⟩ = "c" :=
    fun _ _ _ _ => rfl
  have hL : cacheLookup (ensureDay .nil "d") "d" "c" "a mandi" = none := by decide
  have hM : extractModal (syntheticEntry wHash "c" "a mandi" "d") = 1800 := by decide
  norm_num +decide [findNearestMandis, afterFilterStage, dedupFilter, dedupFilterGo,
    capCandidates, partitionCached, fetchLoop, fetchPe, rankResults, hN, hV, hL, hM, hC,
    wParams, wMandi, wHash, wOracleNone, wEntry, wSynthetic, List.mergeSort,
    MAX_MARKETS_TO_QUERY]

/-- Witness for C4 at the concrete `wParams` run: the returned entry reports a
distance within the 50 km radius. -/
theorem c4_radius_bound_witness : wEntry.distance_km ≤ ((50 : ℤ) : ℚ) :=
  c4_radius_bound wParams wHash wOracleNone [wMandi] .nil [wMandi] 50
    (by norm_num [wParams]) wEntry
    (by rw [findNearest_wRun]; exact List.mem_singleton.mpr rfl)

/-! ### C1: the effective-price identity -/

/-- A candidate 0.123 km away (an exact distance with more than 2 decimals). -/
def xMandi : Mandi := ⟨"a mandi", 123/1000, none⟩

/-- A provider row with modal price 20 for that candidate. -/
def xRow : JVal := JVal.obj (.cons "modal_price" (JVal.num 20) .nil)

/-- An oracle that resolves every candidate to `xRow`. -/
def xOracle : Mandi → Option JVal := fun _ => some xRow

/-- Parameters with fuel rate 0.05 per ton-km and no fees. -/
def xParams : RankParams := ⟨"c", 50, 1/20, 0, 5, "d"⟩

/-- The entry returned for `xMandi`. -/
def xEntry : ResultEntry := mkResultEntry "a mandi" 20 (123/1000) (1/20) 0 xRow

theorem findNearest_xRun :
    (findNearestMandis xParams wHash xOracle [xMandi] .nil [xMandi]).1 = [xEntry] := by
  have hN : normalizeMarketName "a mandi" = "a mandi" := by decide
  have hV : isValidMarketName "a mandi" = true := by decide
  have hC : ∀ (r f g : ℚ) (n : ℕ), commodityKey ⟨"c", r, f, g, n, "d"⟩ = "c" :=
    fun _ _ _ _ => rfl
  have hL : cacheLookup (ensureDay .nil "d") "d" "c" "a mandi" = none := by decide
  have hM : extractModal xRow = 20 := by decide
  have hT : xRow.truthy = true := by decide
  norm_num +decide [findNearestMandis, afterFilterStage, dedupFilter, dedupFilterGo,
    capCandidates, partitionCached, fetchLoop, fetchPe, rankResults, hN, hV, hL, hM, hC, hT,
    xParams, xMandi, wHash, xOracle, xEntry, List.mergeSort, MAX_MARKETS_TO_QUERY]

/-- C1 counterexample: at a candidate whose exact distance is 0.123 km with
modal price 20, fuel rate 0.05 per ton-km and no fees, the returned entry has
`effective_price = 20` (the exact value 19.999385 rounded to 2 decimals) but
`modal_price - distance_km * (fuel/10) - fees/10 = 20 - 0.12 * 0.005 = 19.9994`
over the reported (rounded) `distance_km`, so the claimed exact arithmetic
identity over the entry fields fails. -/
theorem c1_counterexample :
    ¬ (∀ e ∈ (findNearestMandis xParams wHash xOracle [xMandi] .nil [xMandi]).1,
        e.effective_price =
          e.modal_price - e.distance_km * (xParams.fuelRate / 10) - xParams.mandiFees / 10) := by
  intro hall
  have hx := hall xEntry (by rw [findNearest_xRun]; exact List.mem_singleton.mpr rfl)
  rw [show xEntry.effective_price = (20 : ℚ) by
        norm_num [xEntry, mkResultEntry, pyRound2, rhe],
      show xEntry.distance_km = (12/100 : ℚ) by
        norm_num [xEntry, mkResultEntry, pyRound2, rhe],
      show xEntry.modal_price = (20 : ℚ) from rfl] at hx
  norm_num [xParams] at hx

/-- C1 (amended): every returned entry has
`effective_price = round2(modal − d·(fuel/10) − fees/10)` computed from the
exact (pre-rounding) distance `d`, while `distance_km` reports `round2 d` —
the identity over the reported rounded distance holds only up to rounding;
and the spec scenario (one candidate at exactly 10 km, cached modal price
2000, fuel 0.05 per ton-km, no fees) yields exactly 1999.95. -/
theorem c1_effective_price_rounding :
    (∀ (name : String) (modal d f g : ℚ) (raw : JVal),
      (mkResultEntry name modal d f g raw).effective_price =
        pyRound2 (modal - d * (f / 10) - g / 10) ∧
      (mkResultEntry name modal d f g raw).distance_km = pyRound2 d) ∧
    (∀ (p : RankParams) (pyHash : String → String → Int) (oracle : Mandi → Option JVal)
        (disc : List Mandi) (c0 : JFields) (ord : List Mandi) (e : ResultEntry),
      e ∈ (findNearestMandis p pyHash oracle disc c0 ord).1 →
      ∃ (nm : String) (modal d : ℚ) (raw : JVal),
        e = mkResultEntry nm modal d p.fuelRate p.mandiFees raw) ∧
    ((findNearestMandis ⟨"Tomato", 50, 1/20, 0, 5, "d"⟩ wHash wOracleNone
        [⟨"Tomato Mandi", 10, none⟩]
        (.cons "d" (JVal.obj (.cons "tomato"
          (JVal.obj (.cons "tomato mandi"
            (JVal.obj (.cons "modal_price" (JVal.num 2000) .nil)) .nil)) .nil)) .nil)
        []).1.map ResultEntry.effective_price = [199995/100]) := by
  refine ⟨fun name modal d f g raw => ⟨rfl, rfl⟩, ?_, ?_⟩
  · intro p pyHash oracle disc c0 ord e he
    rcases mem_findNearestMandis he with ⟨m, hm⟩ | ⟨m, hm⟩
    · rcases cachedEntryOf_shape hm with ⟨c, he1, _⟩
      exact ⟨m.name, extractModal c, m.distKm, c, he1⟩
    · rcases fetchEntryOf_shape hm with ⟨he1, _⟩
      exact ⟨m.name, extractModal (fetchPe p pyHash oracle m), m.distKm,
        fetchPe p pyHash oracle m, he1⟩
  · have hN : normalizeMarketName "Tomato Mandi" = "tomato mandi" := by decide
    have hV : isValidMarketName "Tomato Mandi" = true := by decide
    have hC : ∀ (r f g : ℚ) (n : ℕ), commodityKey ⟨"Tomato", r, f, g, n, "d"⟩ = "tomato" :=
      fun _ _ _ _ => rfl
    have hL : cacheLookup (ensureDay (.cons "d" (JVal.obj (.cons "tomato"
          (JVal.obj (.cons "tomato mandi"
            (JVal.obj (.cons "modal_price" (JVal.num 2000) .nil)) .nil)) .nil)) .nil) "d")
          "d" "tomato" "tomato mandi" =
        some (JVal.obj (.cons "modal_price" (JVal.num 2000) .nil)) := by decide
    have hM : extractModal (JVal.obj (.cons "modal_price" (JVal.num 2000) .nil)) = 2000 := by
      decide
    have hT : (JVal.obj (.cons "modal_price" (JVal.num 2000) JFields.nil)).truthy = true := by
      decide
    norm_num +decide [findNearestMandis, afterFilterStage, dedupFilter, dedupFilterGo,
      capCandidates, partitionCached, fetchLoop, rankResults, hN, hV, hL, hM, hC, hT,
      List.mergeSort, MAX_MARKETS_TO_QUERY, mkResultEntry, pyRound2, rhe]

/-- Witness for the amended C1 at the concrete `wParams` run. -/
theorem c1_effective_price_rounding_witness :
    ∃ (nm : String) (modal d : ℚ) (raw : JVal),
      wEntry = mkResultEntry nm modal d wParams.fuelRate wParams.mandiFees raw :=
  c1_effective_price_rounding.2.1 wParams wHash wOracleNone [wMandi] .nil [wMandi] wEntry
    (by rw [findNearest_wRun]; exact List.mem_singleton.mpr rfl)

/-! ### C7: the deterministic synthetic placeholder -/

theorem extractModal_syntheticEntry (pyHash : String → String → Int) (c n D : String) :
    extractModal (syntheticEntry pyHash c n D) = (synthModal pyHash c n : ℚ) := by
  have hpos : (0 : ℚ) < (synthModal pyHash c n : ℚ) := by
    have h1 : 0 < synthModal pyHash c n := by unfold synthModal; omega
    exact_mod_cast h1
  unfold extractModal syntheticEntry
  simp [getFields, pyOrJ, JVal.truthy, ne_of_gt hpos]

theorem fetchLoop_produces (p : RankParams) (pyHash : String → String → Int)
    (oracle : Mandi → Option JVal) : ∀ (ord : List Mandi) (cache : JFields) (m : Mandi),
    m ∈ ord → oracle m = none → ¬ m.distKm > p.radiusKm →
    ∃ e ∈ (fetchLoop p pyHash oracle ord cache).1,
      e.raw = syntheticEntry pyHash p.commodity (normalizeMarketName m.name) p.today ∧
      e.modal_price = (synthModal pyHash p.commodity (normalizeMarketName m.name) : ℚ)
  | [], _, m, hmem, _, _ => absurd hmem (List.not_mem_nil m)
  | m0 :: rest, cache, m, hmem, habs, hrad => by
    rcases List.mem_cons.mp hmem with heq | hmem2
    · subst heq
      simp only [fetchLoop, fetchPe, habs, hrad, if_false]
      refine ⟨_, List.mem_cons_self _ _, rfl, ?_⟩
      exact extractModal_syntheticEntry pyHash p.commodity (normalizeMarketName m.name) p.today
    · by_cases hd0 : m0.distKm > p.radiusKm
      · simp only [fetchLoop, hd0, if_true]
        exact fetchLoop_produces p pyHash oracle rest cache m hmem2 habs hrad
      · simp only [fetchLoop, hd0, if_false]
        rcases fetchLoop_produces p pyHash oracle rest
            (cachePut cache p.today (commodityKey p)
              (normalizeMarketName m0.name) (fetchPe p pyHash oracle m0)) m hmem2 habs hrad
          with ⟨e, he, hr, hmp⟩
        exact ⟨e, List.mem_cons_of_mem _ he, hr, hmp⟩

/-- C7: when every price-lookup tier fails for a candidate (`oracle m = none`)
within the radius, the coordinator still produces a result entry whose raw
record is the deterministic synthetic placeholder; the placeholder's modal is
`1800 + (seed % 1200)` for `seed = |hash(commodity, norm)| % 1000`, hence in
`[1800, 2999]`, its `min_price` is `max(1000, modal − 200)` and its
`max_price` is `modal + 200`; the record is a function of `(commodity,
normalized name)` and the day stamp only. -/
theorem c7_synthetic_placeholder :
    (∀ (pyHash : String → String → Int) (c n D : String),
      extractModal (syntheticEntry pyHash c n D) =
        ((1800 + ((pyHash c n).natAbs % 1000) % 1200 : ℕ) : ℚ) ∧
      (1800 : ℚ) ≤ extractModal (syntheticEntry pyHash c n D) ∧
      extractModal (syntheticEntry pyHash c n D) ≤ 2999 ∧
      jGet (syntheticEntry pyHash c n D) "min_price" =
        some (JVal.num (max 1000 ((synthModal pyHash c n : ℚ) - 200))) ∧
      jGet (syntheticEntry pyHash c n D) "max_price" =
        some (JVal.num ((synthModal pyHash c n : ℚ) + 200))) ∧
    (∀ (p : RankParams) (pyHash : String → String → Int) (oracle : Mandi → Option JVal)
        (ord : List Mandi) (cache : JFields) (m : Mandi),
      m ∈ ord → oracle m = none → ¬ m.distKm > p.radiusKm →
      ∃ e ∈ (fetchLoop p pyHash oracle ord cache).1,
        e.raw = syntheticEntry pyHash p.commodity (normalizeMarketName m.name) p.today ∧
        e.modal_price =
          (synthModal pyHash p.commodity (normalizeMarketName m.name) : ℚ)) := by
  constructor
  · intro pyHash c n D
    have hm := extractModal_syntheticEntry pyHash c n D
    refine ⟨hm, ?_, ?_, ?_, ?_⟩
    · rw [hm]
      have h1 : 1800 ≤ synthModal pyHash c n := by unfold synthModal; omega
      exact_mod_cast h1
    · rw [hm]
      have h1 : synthModal pyHash c n ≤ 2999 := by
        unfold synthModal
        have := Nat.mod_lt ((pyHash c n).natAbs % 1000) (show 0 < 1200 by omega)
        omega
      exact_mod_cast h1
    · simp [syntheticEntry, jGet, getFields]
    · simp [syntheticEntry, jGet, getFields]
  · exact fun p pyHash oracle ord cache m => fetchLoop_produces p pyHash oracle ord cache m

/-- Witness for C7 at the concrete fixture: the lone candidate with all
tiers Absent receives the synthetic record. -/
theorem c7_synthetic_placeholder_witness :
    ∃ e ∈ (fetchLoop wParams wHash wOracleNone [wMandi] .nil).1,
      e.raw = syntheticEntry wHash wParams.commodity (normalizeMarketName wMandi.name)
          wParams.today ∧
      e.modal_price =
        (synthModal wHash wParams.commodity (normalizeMarketName wMandi.name) : ℚ) :=
  c7_synthetic_placeholder.2 wParams wHash wOracleNone [wMandi] .nil wMandi
    (List.mem_singleton.mpr rfl) rfl (by norm_num [wMandi, wParams])

/-! ### C6: what the coordinator does to the cache on Absent -/

theorem cacheLookup_cachePut_self (cache : JFields) (D k X : String) (e : JVal) :
    cacheLookup (cachePut cache D k X e) D k X = some e := by
  have hday : cacheGetDay (cachePut cache D k X e) D =
      JVal.obj (setFields (dayFieldsOf cache D) k
        (JVal.obj (setFields (commodityFieldsOf (dayFieldsOf cache D) k) X e))) := by
    unfold cachePut cacheGetDay
    rw [getFields_setFields_self]
    simp [JVal.truthy, setFields_isEmpty_false]
  have hnest : jGet (cacheGetDay (cachePut cache D k X e) D) k =
      some (JVal.obj (setFields (commodityFieldsOf (dayFieldsOf cache D) k) X e)) := by
    rw [hday]
    show getFields (setFields (dayFieldsOf cache D) k _) k = _
    rw [getFields_setFields_self]
  rw [cacheLookup_eq_nested X hnest, getFields_setFields_self]

/-- The nested cache shape `cache[D][k][X] = e`, as the write leaves it. -/
def NestedAt (cache : JFields) (D k X : String) (e : JVal) : Prop :=
  ∃ dv sv, getFields cache D = some (JVal.obj dv) ∧
    getFields dv k = some (JVal.obj sv) ∧ getFields sv X = some e

theorem NestedAt.lookup {cache : JFields} {D k X : String} {e : JVal}
    (h : NestedAt cache D k X e) : cacheLookup cache D k X = some e := by
  rcases h with ⟨dv, sv, h1, h2, h3⟩
  cases dv with
  | nil => simp [getFields] at h2
  | cons a b t =>
    have hday : cacheGetDay cache D = JVal.obj (JFields.cons a b t) := by
      unfold cacheGetDay
      rw [h1]
      simp [JVal.truthy, JFields.isEmpty]
    have hnest : jGet (cacheGetDay cache D) k = some (JVal.obj sv) := by
      rw [hday]; exact h2
    rw [cacheLookup_eq_nested X hnest]
    exact h3

theorem nestedAt_cachePut_self (cache : JFields) (D k X : String) (e : JVal) :
    NestedAt (cachePut cache D k X e) D k X e := by
  refine ⟨setFields (dayFieldsOf cache D) k
      (JVal.obj (setFields (commodityFieldsOf (dayFieldsOf cache D) k) X e)),
    setFields (commodityFieldsOf (dayFieldsOf cache D) k) X e, ?_, ?_, ?_⟩
  · exact getFields_setFields_self _ _ _
  · exact getFields_setFields_self _ _ _
  · exact getFields_setFields_self _ _ _

theorem nestedAt_cachePut_preserve {cache : JFields} {D k X : String} {e : JVal}
    (X2 : String) (e2 : JVal) (hX : X2 ≠ X) (h : NestedAt cache D k X e) :
    NestedAt (cachePut cache D k X2 e2) D k X e := by
  rcases h with ⟨dv, sv, h1, h2, h3⟩
  have hdf : dayFieldsOf cache D = dv := by unfold dayFieldsOf; rw [h1]
  have hcf : commodityFieldsOf dv k = sv := by unfold commodityFieldsOf; rw [h2]
  refine ⟨setFields dv k (JVal.obj (setFields sv X2 e2)), setFields sv X2 e2, ?_, ?_, ?_⟩
  · simp only [cachePut]
    rw [hdf, hcf]
    exact getFields_setFields_self _ _ _
  · exact getFields_setFields_self _ _ _
  · rw [getFields_setFields_ne _ _ _ _ hX]
    exact h3

theorem fetchLoop_preserves_nestedAt (p : RankParams) (pyHash : String → String → Int)
    (oracle : Mandi → Option JVal) (X : String) (e : JVal) :
    ∀ (ord : List Mandi) (cache : JFields),
    (∀ m ∈ ord, normalizeMarketName m.name ≠ X) →
    NestedAt cache p.today (commodityKey p) X e →
    NestedAt (fetchLoop p pyHash oracle ord cache).2 p.today (commodityKey p) X e
  | [], _, _, h => h
  | m :: rest, cache, hall, h => by
    by_cases hd : m.distKm > p.radiusKm
    · simp only [fetchLoop, hd, if_true]
      exact fetchLoop_preserves_nestedAt p pyHash oracle X e rest cache
        (fun a ha => hall a (List.mem_cons_of_mem _ ha)) h
    · simp only [fetchLoop, hd, if_false]
      exact fetchLoop_preserves_nestedAt p pyHash oracle X e rest _
        (fun a ha => hall a (List.mem_cons_of_mem _ ha))
        (nestedAt_cachePut_preserve _ _ (hall m (List.mem_cons_self _ _)) h)

theorem fetchLoop_caches_synthetic (p : RankParams) (pyHash : String → String → Int)
    (oracle : Mandi → Option JVal) :
    ∀ (ord : List Mandi) (cache : JFields) (m : Mandi), m ∈ ord →
    ord.Pairwise (fun a b => normalizeMarketName a.name ≠ normalizeMarketName b.name) →
    oracle m = none → ¬ m.distKm > p.radiusKm →
    NestedAt (fetchLoop p pyHash oracle ord cache).2 p.today (commodityKey p)
      (normalizeMarketName m.name)
      (syntheticEntry pyHash p.commodity (normalizeMarketName m.name) p.today)
  | [], _, m, hmem, _, _, _ => absurd hmem (List.not_mem_nil m)
  | m0 :: rest, cache, m, hmem, hpw, habs, hrad => by
    rcases List.mem_cons.mp hmem with heq | hmem2
    · subst heq
      simp only [fetchLoop, fetchPe, habs, hrad, if_false]
      exact fetchLoop_preserves_nestedAt p pyHash oracle _ _ rest _
        (fun a ha => (List.rel_of_pairwise_cons hpw ha).symm)
        (nestedAt_cachePut_self _ _ _ _ _)
    · by_cases hd0 : m0.distKm > p.radiusKm
      · simp only [fetchLoop, hd0, if_true]
        exact fetchLoop_caches_synthetic p pyHash oracle rest cache m hmem2
          hpw.tail habs hrad
      · simp only [fetchLoop, hd0, if_false]
        exact fetchLoop_caches_synthetic p pyHash oracle rest _ m hmem2
          hpw.tail habs hrad

/-- Evaluation of the final cache of the `wParams` run: the coordinator wrote
the synthetic record under `date → commodity → market`. -/
theorem findNearest_wRunCache :
    (findNearestMandis wParams wHash wOracleNone [wMandi] .nil [wMandi]).2 =
      cachePut (ensureDay .nil "d") "d" "c" "a mandi" wSynthetic := by
  have hN : normalizeMarketName "a mandi" = "a mandi" := by decide
  have hC : ∀ (r f g : ℚ) (n : ℕ), commodityKey ⟨"c", r, f, g, n, "d"⟩ = "c" :=
    fun _ _ _ _ => rfl
  norm_num +decide [findNearestMandis, fetchLoop, fetchPe, hN, hC, wParams, wMandi,
    wHash, wOracleNone, wSynthetic]

/-- C6 counterexample: in a run whose single candidate has all lookup tiers
Absent, the claim says the cache is left unchanged for
`(date, commodity, market)`; but the key was absent before the run and holds
the synthetic placeholder record after it. -/
theorem c6_counterexample :
    cacheLookup (findNearestMandis wParams wHash wOracleNone [wMandi] .nil [wMandi]).2
        "d" "c" "a mandi" = some wSynthetic ∧
    cacheLookup (ensureDay .nil "d") "d" "c" "a mandi" = none := by
  constructor
  · rw [findNearest_wRunCache]
    exact cacheLookup_cachePut_self _ "d" "c" "a mandi" wSynthetic
  · decide

/-- C6 (amended): on the Absent outcome for a candidate within the radius,
the lookup layer (`_fetch_for_market`, the oracle) writes nothing, but the
coordinating loop above it synthesizes a placeholder, produces an entry from
it, and writes that synthetic record into the price cache under the
`(date, commodity, normalized market)` key — the cache is not left unchanged. -/
theorem c6_absent_caches_synthetic (p : RankParams) (pyHash : String → String → Int)
    (oracle : Mandi → Option JVal) (ord : List Mandi) (cache : JFields) (m : Mandi)
    (hmem : m ∈ ord)
    (hpw : ord.Pairwise (fun a b => normalizeMarketName a.name ≠ normalizeMarketName b.name))
    (habs : oracle m = none) (hrad : ¬ m.distKm > p.radiusKm) :
    cacheLookup (fetchLoop p pyHash oracle ord cache).2 p.today (commodityKey p)
        (normalizeMarketName m.name) =
      some (syntheticEntry pyHash p.commodity (normalizeMarketName m.name) p.today) :=
  (fetchLoop_caches_synthetic p pyHash oracle ord cache m hmem hpw habs hrad).lookup

/-- Witness for the amended C6 at the concrete fixture. -/
theorem c6_absent_caches_synthetic_witness :
    cacheLookup (fetchLoop wParams wHash wOracleNone [wMandi] .nil).2 wParams.today
        (commodityKey wParams) (normalizeMarketName wMandi.name) =
      some (syntheticEntry wHash wParams.commodity (normalizeMarketName wMandi.name)
        wParams.today) :=
  c6_absent_caches_synthetic wParams wHash wOracleNone [wMandi] .nil wMandi
    (List.mem_singleton.mpr rfl) (List.pairwise_singleton _ _) rfl
    (by norm_num [wMandi, wParams])

/-! ### C8: completion-order determinism -/

/-- A second candidate at the same 10 km distance as `wMandi`. -/
def bMandi : Mandi := ⟨"b mandi", 10, none⟩

/-- The entries the two tied candidates produce under `xOracle` row data. -/
def eA : ResultEntry := mkResultEntry "a mandi" 20 10 0 0 xRow

/-- Companion entry of `eA` for the second candidate. -/
def eB : ResultEntry := mkResultEntry "b mandi" 20 10 0 0 xRow

theorem toQueryOf_tie :
    toQueryOf wParams [wMandi, bMandi] .nil = [wMandi, bMandi] := by
  have hNa : normalizeMarketName "a mandi" = "a mandi" := by decide
  have hNb : normalizeMarketName "b mandi" = "b mandi" := by decide
  have hVa : isValidMarketName "a mandi" = true := by decide
  have hVb : isValidMarketName "b mandi" = true := by decide
  have hC : ∀ (r f g : ℚ) (n : ℕ), commodityKey ⟨"c", r, f, g, n, "d"⟩ = "c" :=
    fun _ _ _ _ => rfl
  have hLa : cacheLookup (ensureDay .nil "d") "d" "c" "a mandi" = none := by decide
  have hLb : cacheLookup (ensureDay .nil "d") "d" "c" "b mandi" = none := by decide
  norm_num +decide [toQueryOf, afterFilterStage, dedupFilter, dedupFilterGo,
    capCandidates, partitionCached, hNa, hNb, hVa, hVb, hLa, hLb, hC,
    wParams, wMandi, bMandi, List.mergeSort, List.merge, candLE, distanceKey,
    pyRound2, rhe, MAX_MARKETS_TO_QUERY]

theorem findNearest_tieRun1 :
    (findNearestMandis wParams wHash xOracle [wMandi, bMandi] .nil
      [wMandi, bMandi]).1 = [eA, eB] := by
  have hNa : normalizeMarketName "a mandi" = "a mandi" := by decide
  have hNb : normalizeMarketName "b mandi" = "b mandi" := by decide
  have hVa : isValidMarketName "a mandi" = true := by decide
  have hVb : isValidMarketName "b mandi" = true := by decide
  have hC : ∀ (r f g : ℚ) (n : ℕ), commodityKey ⟨"c", r, f, g, n, "d"⟩ = "c" :=
    fun _ _ _ _ => rfl
  have hLa : cacheLookup (ensureDay .nil "d") "d" "c" "a mandi" = none := by decide
  have hLb : cacheLookup (ensureDay .nil "d") "d" "c" "b mandi" = none := by decide
  have hM : extractModal xRow = 20 := by decide
  have hT : xRow.truthy = true := by decide
  norm_num +decide [findNearestMandis, afterFilterStage, dedupFilter, dedupFilterGo,
    capCandidates, partitionCached, fetchLoop, fetchPe, rankResults, hNa, hNb, hVa, hVb,
    hLa, hLb, hM, hC, hT, wParams, wMandi, bMandi, wHash, xOracle, eA, eB,
    List.mergeSort, List.merge, candLE, rankLE, distanceKey, pyRound2, rhe,
    MAX_MARKETS_TO_QUERY, mkResultEntry]

theorem findNearest_tieRun2 :
    (findNearestMandis wParams wHash xOracle [wMandi, bMandi] .nil
      [bMandi, wMandi]).1 = [eB, eA] := by
  have hNa : normalizeMarketName "a mandi" = "a mandi" := by decide
  have hNb : normalizeMarketName "b mandi" = "b mandi" := by decide
  have hVa : isValidMarketName "a mandi" = true := by decide
  have hVb : isValidMarketName "b mandi" = true := by decide
  have hC : ∀ (r f g : ℚ) (n : ℕ), commodityKey ⟨"c", r, f, g, n, "d"⟩ = "c" :=
    fun _ _ _ _ => rfl
  have hLa : cacheLookup (ensureDay .nil "d") "d" "c" "a mandi" = none := by decide
  have hLb : cacheLookup (ensureDay .nil "d") "d" "c" "b mandi" = none := by decide
  have hM : extractModal xRow = 20 := by decide
  have hT : xRow.truthy = true := by decide
  norm_num +decide [findNearestMandis, afterFilterStage, dedupFilter, dedupFilterGo,
    capCandidates, partitionCached, fetchLoop, fetchPe, rankResults, hNa, hNb, hVa, hVb,
    hLa, hLb, hM, hC, hT, wParams, wMandi, bMandi, wHash, xOracle, eA, eB,
    List.mergeSort, List.merge, candLE, rankLE, distanceKey, pyRound2, rhe,
    MAX_MARKETS_TO_QUERY, mkResultEntry]

/-- C8 counterexample: two candidates at the same rounded distance with the
same fetched price rows tie on the ranking key; the two worker completion
orders (both permutations of the same `to_query` partition) yield output
lists with the tied entries in different positions, so completion-order
nondeterminism does leak into the returned ordering. -/
theorem c8_counterexample :
    [bMandi, wMandi].Perm (toQueryOf wParams [wMandi, bMandi] .nil) ∧
    (findNearestMandis wParams wHash xOracle [wMandi, bMandi] .nil
        (toQueryOf wParams [wMandi, bMandi] .nil)).1 ≠
      (findNearestMandis wParams wHash xOracle [wMandi, bMandi] .nil
        [bMandi, wMandi]).1 := by
  constructor
  · rw [toQueryOf_tie]
    exact List.Perm.swap wMandi bMandi []
  · rw [toQueryOf_tie, findNearest_tieRun1, findNearest_tieRun2]
    intro hcontra
    have hmap := congrArg (fun l => l.map ResultEntry.city) hcontra
    simp +decide [eA, eB, mkResultEntry] at hmap

/-- C8 (amended): two executions on the same candidates and the same fetched
price rows that differ only in the completion order of the concurrent
price-lookup workers return identical output lists provided no two result
entries tie on the `(distance_km, effective_price)` ranking key; tied entries
may come back in either order (and truncation may then select among them). -/
theorem c8_order_determinism (p : RankParams) (pyHash : String → String → Int)
    (oracle : Mandi → Option JVal) (disc : List Mandi) (c0 : JFields)
    (ord1 ord2 : List Mandi) (hperm : ord1.Perm ord2)
    (hties : ((partitionCached p (ensureDay c0 p.today) (afterFilterStage disc)).1 ++
        (fetchLoop p pyHash oracle ord1 (ensureDay c0 p.today)).1).Pairwise
        (fun a b => ¬(rankLE a b ∧ rankLE b a))) :
    (findNearestMandis p pyHash oracle disc c0 ord1).1 =
      (findNearestMandis p pyHash oracle disc c0 ord2).1 := by
  simp only [findNearestMandis, rankResults]
  have hresperm : ((partitionCached p (ensureDay c0 p.today) (afterFilterStage disc)).1 ++
      (fetchLoop p pyHash oracle ord1 (ensureDay c0 p.today)).1).Perm
      ((partitionCached p (ensureDay c0 p.today) (afterFilterStage disc)).1 ++
        (fetchLoop p pyHash oracle ord2 (ensureDay c0 p.today)).1) := by
    apply List.Perm.append_left
    rw [fetchLoop_fst, fetchLoop_fst]
    exact hperm.filterMap _
  have hsort1 := List.sorted_mergeSort rankLE_trans
    (fun a b => rankLE_total a b)
    ((partitionCached p (ensureDay c0 p.today) (afterFilterStage disc)).1 ++
      (fetchLoop p pyHash oracle ord1 (ensureDay c0 p.today)).1)
  have hsort2 := List.sorted_mergeSort rankLE_trans
    (fun a b => rankLE_total a b)
    ((partitionCached p (ensureDay c0 p.today) (afterFilterStage disc)).1 ++
      (fetchLoop p pyHash oracle ord2 (ensureDay c0 p.today)).1)
  have hmsperm := ((List.mergeSort_perm _ rankLE).trans hresperm).trans
    (List.mergeSort_perm _ rankLE).symm
  have hties2 := (List.Perm.pairwise_iff
    (fun {x y} (hc : ¬(rankLE x y ∧ rankLE y x)) (hp : rankLE y x ∧ rankLE x y) =>
      hc ⟨hp.2, hp.1⟩)
    (List.mergeSort_perm _ rankLE)).mpr hties
  rw [sorted_perm_eq rankLE _ _ hmsperm hsort1 hsort2 hties2]

/-- Witness for the amended C8 at the concrete single-candidate run. -/
theorem c8_order_determinism_witness :
    (findNearestMandis wParams wHash wOracleNone [wMandi] .nil [wMandi]).1 =
      (findNearestMandis wParams wHash wOracleNone [wMandi] .nil [wMandi]).1 := by
  apply c8_order_determinism wParams wHash wOracleNone [wMandi] .nil [wMandi] [wMandi]
    (List.Perm.refl _)
  have hN : normalizeMarketName "a mandi" = "a mandi" := by decide
  have hC : ∀ (r f g : ℚ) (n : ℕ), commodityKey ⟨"c", r, f, g, n, "d"⟩ = "c" :=
    fun _ _ _ _ => rfl
  have hL : cacheLookup (ensureDay .nil "d") "d" "c" "a mandi" = none := by decide
  norm_num +decide [findNearestMandis, afterFilterStage, dedupFilter, dedupFilterGo,
    capCandidates, partitionCached, fetchLoop, fetchPe, hN, hC, hL,
    wParams, wMandi, wHash, wOracleNone, List.mergeSort, MAX_MARKETS_TO_QUERY]

/-! ### C10: the emptied post-filter fallback -/

theorem dedupFilterGo_nil_of_invalid : ∀ (ms : List Mandi) (seen : List String),
    (∀ m ∈ ms, isValidMarketName m.name = false ∧ m.source ≠ some "geocache") →
    dedupFilterGo ms seen = []
  | [], _, _ => rfl
  | m :: rest, seen, hall => by
    obtain ⟨hv, hs⟩ := hall m (List.mem_cons_self _ _)
    have htail : ∀ a ∈ rest, isValidMarketName a.name = false ∧ a.source ≠ some "geocache" :=
      fun a ha => hall a (List.mem_cons_of_mem _ ha)
    by_cases h0 : normalizeMarketName m.name = "" ∨ normalizeMarketName m.name ∈ seen
    · simp only [dedupFilterGo, h0, if_true]
      exact dedupFilterGo_nil_of_invalid rest seen htail
    · simp only [dedupFilterGo, h0, if_false, hv, Bool.false_eq_true, hs]
      exact dedupFilterGo_nil_of_invalid rest _ htail

/-- C10: when every discovered candidate fails the name-validation heuristics
and none carries the geocache source tag, `find_nearest_mandis` returns the
empty list — the post-filter fallback of lines 826-828 rebuilds from the
already-emptied filtered list (not the original candidates), so it can never
restore a candidate dropped by name filtering, and the whole pipeline
produces nothing. -/
theorem c10_all_filtered_empty (p : RankParams) (pyHash : String → String → Int)
    (oracle : Mandi → Option JVal) (disc : List Mandi) (c0 : JFields) (ord : List Mandi)
    (hall : ∀ m ∈ disc, isValidMarketName m.name = false ∧ m.source ≠ some "geocache")
    (hord : ord.Perm (toQueryOf p disc c0)) :
    (findNearestMandis p pyHash oracle disc c0 ord).1 = [] := by
  have h1 : dedupFilter disc = [] := dedupFilterGo_nil_of_invalid disc [] hall
  have h2 : afterFilterStage disc = [] := by
    simp [afterFilterStage, h1, capCandidates, buildNormDict]
  have h3 : toQueryOf p disc c0 = [] := by
    simp [toQueryOf, h2, partitionCached]
  have h4 : ord = [] := List.perm_nil.mp (h3 ▸ hord)
  subst h4
  simp [findNearestMandis, h2, partitionCached, fetchLoop, rankResults]

/-- A candidate whose name is blacklisted by `_is_valid_market_name`. -/
def gMandi : Mandi := ⟨"dmart", 5, none⟩

/-- Witness for C10: a discovery set holding only a blacklisted non-geocache
candidate yields the empty result. -/
theorem c10_all_filtered_empty_witness :
    (findNearestMandis wParams wHash wOracleNone [gMandi] .nil []).1 = [] := by
  apply c10_all_filtered_empty wParams wHash wOracleNone [gMandi] .nil []
  · intro m hm
    rw [List.mem_singleton.mp hm]
    exact ⟨by decide, by decide⟩
  · rw [show toQueryOf wParams [gMandi] .nil = [] from by
      norm_num +decide [toQueryOf, afterFilterStage, dedupFilter, dedupFilterGo,
        capCandidates, partitionCached, buildNormDict, gMandi, wParams,
        MAX_MARKETS_TO_QUERY]]

/-! ### C9: single-point forecast -/

/-- C9: `forecast_prices` on a series with exactly one data point (assuming
the external ARIMA fit raises on it, the insufficient-data case) returns
exactly 14 forecast entries, each carrying that point's modal price forward,
without raising. -/
theorem c9_single_point_flat (arima : List ℚ → Option (List ℚ)) (nowD : ℤ)
    (p : PriceRow) (hfail : arima [p.modal] = none) :
    (forecastPrices arima nowD [p]).length = 14 ∧
    ∀ q ∈ (forecastPrices arima nowD [p]).map Prod.snd, q = p.modal := by
  constructor
  · simp [forecastPrices, hfail]
  · intro q hq
    simp only [forecastPrices, List.mergeSort_singleton, List.map_cons, List.map_nil,
      hfail, List.mem_map] at hq
    rcases hq with ⟨pair, ⟨i, hi, hpi⟩, hsnd⟩
    rw [← hpi] at hsnd
    simp only [List.mem_range] at hi
    rw [← hsnd]
    show (List.replicate 14 ((List.getLast? [p.modal]).getD 0)).getD i 0 = p.modal
    rw [List.getLast?_singleton, List.getD_eq_getElem?_getD, List.getElem?_replicate]
    have h14 : i < 14 := hi
    rw [if_pos h14]
    rfl

/-- Witness for C9 at a concrete single observation of modal price 2500. -/
theorem c9_single_point_flat_witness :
    (forecastPrices (fun _ => none) 0 [⟨2500, some 0⟩]).length = 14 ∧
    ∀ q ∈ (forecastPrices (fun _ => none) 0 [⟨2500, some 0⟩]).map Prod.snd,
      q = (⟨2500, some 0⟩ : PriceRow).modal :=
  c9_single_point_flat (fun _ => none) 0 ⟨2500, some 0⟩ rfl

end KisanMitra
